import Mathlib

/-! Verification of the cyclic-form form-composition library.

The development shallowly embeds the runtime data and algorithms of
src/src/index.ts (the current version of the library):

* JavaScript objects holding form values are modelled as association lists
  `Values α = List (String × α)` whose entry order mirrors the insertion
  order that `Object.keys` iterates over.
* `evolveC`, the endomorphism record-transform, is translated entry by
  entry from the source: it walks the keys of the struct, applying the
  transformation registered for a key and copying the value otherwise.
* The validation / render path of the `form` component (the body of the
  `vnode$` map) is embedded as `errorsRecord`, `allValid`, `viewCalls`
  and `vnodesRecord`.
* The touched-state tracker (the `untouch$` listener together with the
  per-field one-shot `take(1)` gates) is embedded as a state machine
  `touchStep` folded over a trace of delivered events.
* The submission stream (native submits plus configured custom keydowns)
  is embedded as `submissionOut` over the same traces.
* `totalIsolateVNode` is translated directly, including the
  `Array.isArray(node.data.isolate)` guard and the key derivation.
-/

/-- JavaScript runtime values as they occur in validator results:
`null`, strings, numbers and booleans.  `JSVal.null` models the literal
`null` that validators must return on success. -/
inductive JSVal where
  | null
  | str (s : String)
  | num (n : Int)
  | boolean (b : Bool)
deriving DecidableEq

/-- JavaScript truthiness for the values of `JSVal`: `null`, `""`, `0`
and `false` are falsy, everything else is truthy. -/
def jsTruthy : JSVal → Bool
  | JSVal.null => false
  | JSVal.str s => decide (s ≠ "")
  | JSVal.num n => decide (n ≠ 0)
  | JSVal.boolean b => b

/-- The JavaScript expression `a || b`: returns `a` when `a` is truthy
and `b` otherwise. -/
def jsOr (a b : JSVal) : JSVal := if jsTruthy a then a else b

/-- A form values object: an association list from field names to field
values, ordered the way `Object.keys` iterates the object. -/
abbrev Values (α : Type) : Type := List (String × α)

/-- The `Endo` type of src/src/types.ts: an endomorphism on `α`. -/
def Endo (α : Type) : Type := α → α

/-- Translation of `evolveC` (src/src/index.ts, lines 257-275): walk the
keys of the struct in order; where the transformations object registers
a function for the key, store the function applied to the current value,
otherwise copy the value unchanged, building a fresh struct. -/
def evolveC {α : Type} (transformations : String → Option (α → α)) : Values α → Values α :=
  fun struct =>
    struct.map fun p =>
      match transformations p.1 with
      | none => p
      | some f => (p.1, f p.2)

/-- The computed-key object literal `\x7b [key]: endo \x7d` that `form`
passes to `evolveC` (src/src/index.ts, lines 159-163): it registers a
transformation for exactly one key. -/
def singleTrans {α : Type} (key : String) (endo : α → α) : String → Option (α → α) :=
  fun k => if k = key then some endo else none

/-- One per-field update as emitted on the combined reducer stream: the
field's endomorphism lifted to the whole values object through `evolveC`
keyed on that field's own name. -/
def liftedUpdate {α : Type} (key : String) (endo : α → α) : Values α → Values α :=
  evolveC (singleTrans key endo)

/-- An isolation scope entry as produced by the tagger: the object
literal with a `type` field (always the string "total" here) and the
`scope` string. -/
structure IsolateScope where
  type : String
  scope : String
deriving DecidableEq

/-- The part of a snabbdom `VNode`'s `data` object that the tagger
inspects and rewrites: the `isolate` property.  `some arr` models a
proper array value, `none` models an absent or non-array value (the
`Array.isArray` guard in the source treats both alike). -/
structure VNodeData where
  isolate : Option (List IsolateScope) := none
deriving DecidableEq

/-- The part of a rendered `VNode` that the tagger touches: its `data`
object (absent when the JavaScript value is undefined) and its `key`. -/
structure VNode where
  data : Option VNodeData := none
  key : Option String := none
deriving DecidableEq

/-- `JSON.stringify` of one isolation scope object, as used for the
derived node key. -/
def stringifyScope (s : IsolateScope) : String :=
  "\x7b\"type\":\"" ++ s.type ++ "\",\"scope\":\"" ++ s.scope ++ "\"\x7d"

/-- `JSON.stringify` of an isolation scope array, as used for the
derived node key. -/
def stringifyIsolate (l : List IsolateScope) : String :=
  "[" ++ String.intercalate "," (l.map stringifyScope) ++ "]"

/-- Translation of `totalIsolateVNode` (src/src/index.ts, lines
239-255).  A null node passes through.  Otherwise the node's data gains
an `isolate` value: when the node has no data object, or its `isolate`
is not an array, the current namespace extended with a fresh
`\x7b type: "total", scope \x7d` entry; when the node already carries an
isolate array it is kept verbatim.  The node keeps its key when it has
one and otherwise receives the JSON serialization of the new isolate
array. -/
def totalIsolateVNode (node : Option VNode) (ns : List IsolateScope) (scope : String) : Option VNode :=
  match node with
  | none => none
  | some n =>
    let scopeObj : IsolateScope := { type := "total", scope := scope }
    let isolateArr : List IsolateScope :=
      match n.data with
      | none => ns ++ [scopeObj]
      | some d =>
        match d.isolate with
        | none => ns ++ [scopeObj]
        | some arr => arr
    some
      { data := some { isolate := some isolateArr },
        key :=
          match n.key with
          | some k => some k
          | none => some (stringifyIsolate isolateArr) }

/-- Additional data passed as the second argument of every view: the
whole-form validity flag (src/src/types.ts `MetaData`). -/
structure MetaData where
  valid : Bool
deriving DecidableEq

/-- The first argument of a field's view: its (coerced) error, its
touched flag and its current value (src/src/types.ts `ViewInput`). -/
structure ViewInput (α : Type) where
  error : JSVal
  touched : Bool
  value : α

/-- A field module as the render path of `form` sees it: a view taking
the `ViewInput` and the form `MetaData` (a null render result is
allowed), plus the `shouldNotIsolate` flag consulted by the reducer
wiring. -/
structure FieldModel (α : Type) where
  view : ViewInput α → MetaData → Option VNode
  shouldNotIsolate : Bool := false

/-- The per-key body of the `errors` computation of `form`
(src/src/index.ts, lines 170-182): when both the field module and a
validator are registered the validator is applied to the field's current
value, otherwise the error is `null`. -/
def fieldError {α : Type} (fields : String → Option (FieldModel α))
    (validators : String → Option (α → JSVal)) (values : String → α) (key : String) : JSVal :=
  match fields key, validators key with
  | some _, some validator => validator (values key)
  | _, _ => JSVal.null

/-- Translation of the `errors` computation of `form` (src/src/index.ts,
lines 169-187): the per-key errors collected into a record keyed by
field name, over the keys of the fields object. -/
def errorsRecord {α : Type} (fieldKeys : List String) (fields : String → Option (FieldModel α))
    (validators : String → Option (α → JSVal)) (values : String → α) : List (String × JSVal) :=
  fieldKeys.map fun key => (key, fieldError fields validators values key)

/-- Translation of `allValid` (src/src/index.ts, line 189): true exactly
when every computed error is strictly equal to `null`. -/
def allValid (errors : List (String × JSVal)) : Bool :=
  errors.all fun p => p.2 == JSVal.null

/-- The arguments handed to each field's view by the `vnodes`
computation of `form` (src/src/index.ts, lines 191-211): for a missing
field module no view is invoked; otherwise the view receives the error
coerced by `errors[key] || null`, the field's touched flag, the field's
current value, and the metadata record carrying `allValid`. -/
def viewCalls {α : Type} (fieldKeys : List String) (fields : String → Option (FieldModel α))
    (validators : String → Option (α → JSVal)) (values : String → α)
    (touched : String → Bool) : List (String × Option (ViewInput α × MetaData)) :=
  let errors := errorsRecord fieldKeys fields validators values
  let av := allValid errors
  fieldKeys.map fun key =>
    (key,
      match fields key with
      | none => none
      | some _ =>
        some
          ({ error := jsOr ((errors.lookup key).getD JSVal.null) JSVal.null,
             touched := touched key,
             value := values key },
           { valid := av }))

/-- The `vnodes` record produced by the render path (src/src/index.ts,
lines 191-217): each present field's view is invoked with exactly the
arguments recorded by `viewCalls` and the result is tagged through
`totalIsolateVNode` under the form's namespace and the field's name. -/
def vnodesRecord {α : Type} (fieldKeys : List String) (fields : String → Option (FieldModel α))
    (validators : String → Option (α → JSVal)) (values : String → α)
    (touched : String → Bool) (ns : List IsolateScope) : List (String × Option VNode) :=
  let errors := errorsRecord fieldKeys fields validators values
  let av := allValid errors
  fieldKeys.map fun key =>
    (key,
      match fields key with
      | none => none
      | some field =>
        totalIsolateVNode
          (field.view
            { error := jsOr ((errors.lookup key).getD JSVal.null) JSVal.null,
              touched := touched key,
              value := values key }
            { valid := av })
          ns key)

/-- Characterization of the functions emitted on the combined reducer
stream of `form` (src/src/index.ts, lines 148-165): for a key whose
field module is missing the stream `Stream.of(id)` contributes the
identity; for a present field module every emission of its intent is
lifted through `evolveC` keyed on that field's own name. -/
def EmittedUpdate {α : Type} (fieldKeys : List String) (fields : String → Option (FieldModel α))
    (u : Values α → Values α) : Prop :=
  u = id ∨ ∃ key endo, key ∈ fieldKeys ∧ (fields key).isSome ∧ u = liftedUpdate key endo

/-- Apply a list of endomorphisms from left to right, the way a stream
of reducers is folded into the state. -/
def applyEndos {α : Type} (es : List (α → α)) (x : α) : α :=
  es.foldl (fun a e => e a) x

/-- Apply a sequence of lifted per-field updates, in emission order, to
an initial values object. -/
def applyUpdates {α : Type} (L : List (String × (α → α))) (s : Values α) : Values α :=
  L.foldl (fun acc p => liftedUpdate p.1 p.2 acc) s

/-- The subsequence of endomorphisms of one field inside an interleaved
update sequence: exactly that field's own emissions, in order. -/
def projSeq {α : Type} (k : String) (L : List (String × (α → α))) : List (α → α) :=
  L.filterMap fun p => if p.1 = k then some p.2 else none

/-- A DOM keyboard event as inspected by the submission predicates. -/
structure KeyboardEvent where
  ctrlKey : Bool
  metaKey : Bool
  key : String
deriving DecidableEq

/-- The `ctrlEnter` predicate of src/src/index.ts, line 277. -/
def ctrlEnter (e : KeyboardEvent) : Bool := e.ctrlKey && e.key == "Enter"

/-- The `metaEnter` predicate of src/src/index.ts, line 278. -/
def metaEnter (e : KeyboardEvent) : Bool := e.metaKey && e.key == "Enter"

/-- The `defaultPredicate` of src/src/index.ts, line 279: Ctrl+Enter or
Meta+Enter. -/
def defaultPredicate (e : KeyboardEvent) : Bool := ctrlEnter e || metaEnter e

/-- The kinds of interaction events the touched tracker listens to on a
field's isolated source. -/
inductive FieldEventKind where
  | change
  | focus
  | input
deriving DecidableEq

/-- One delivered event, in arrival order over the life of a form
session: a change/focus/input interaction on a field's isolated source,
a keydown on a field's isolated source, a native submit on the rendered
form element, or an emission of the `untouch$` source stream. -/
inductive DomEvent where
  | interaction (field : String) (kind : FieldEventKind)
  | keydown (field : String) (e : KeyboardEvent)
  | submit
  | untouch (key : Option String)
deriving DecidableEq

/-- The mutable state of the touched tracker: the `touchedKeys` set and,
for each field, whether its one-shot `take(1)` gate has already consumed
its single event. -/
structure TouchState where
  touched : String → Bool
  fired : String → Bool

/-- The state at instantiation: `touchedKeys` empty and every gate still
armed. -/
def initTouch : TouchState := { touched := fun _ => false, fired := fun _ => false }

/-- One step of the touched tracker (src/src/index.ts, lines 98-107 and
126-140).  An interaction on a field listed in the fields object whose
gate is still armed marks the field touched and completes the gate;
interactions on other fields, or after the gate completed, change
nothing.  An `untouch$` emission of `null` replaces the set with an
empty one; an emission of a key deletes that key.  Keydowns and submits
do not touch this state. -/
def touchStep (fieldKeys : List String) (s : TouchState) (ev : DomEvent) : TouchState :=
  match ev with
  | DomEvent.interaction k _ =>
    if k ∈ fieldKeys ∧ s.fired k = false then
      { touched := fun x => if x = k then true else s.touched x,
        fired := fun x => if x = k then true else s.fired x }
    else s
  | DomEvent.untouch none => { s with touched := fun _ => false }
  | DomEvent.untouch (some k) => { s with touched := fun x => if x = k then false else s.touched x }
  | _ => s

/-- Run the touched tracker from a given state over a trace of delivered
events. -/
def runTouchedFrom (fieldKeys : List String) (s : TouchState) (trace : List DomEvent) : TouchState :=
  trace.foldl (touchStep fieldKeys) s

/-- Run the touched tracker from instantiation over a trace of delivered
events. -/
def runTouched (fieldKeys : List String) (trace : List DomEvent) : TouchState :=
  runTouchedFrom fieldKeys initTouch trace

/-- One element of the submission sink stream: a native submit (with its
default browser submission suppressed by the `preventDefault: true`
option) or a custom keydown submission from a configured field. -/
inductive SubmissionItem where
  | nativeSubmit (defaultSuppressed : Bool)
  | customSubmit (field : String) (e : KeyboardEvent)
deriving DecidableEq

/-- The submission sink of `form` (src/src/index.ts, lines 115-124 and
225-228): the merge of the native submit events captured on the rendered
form element with `preventDefault: true`, and of one keydown stream per
configured custom-submission field, each filtered by the configured
predicate.  A keydown on field `k` appears once per occurrence of `k` in
the configured field list (a JavaScript `Set`, hence at most once). -/
def submissionOut (submissionFields : List String) (predicate : KeyboardEvent → Bool)
    (trace : List DomEvent) : List SubmissionItem :=
  trace.flatMap fun ev =>
    match ev with
    | DomEvent.submit => [SubmissionItem.nativeSubmit true]
    | DomEvent.keydown k e =>
      if predicate e then List.replicate (submissionFields.count k) (SubmissionItem.customSubmit k e)
      else []
    | _ => []

/-- Looking up a key in a record built by mapping a key-determined value
over a key list finds that value whenever the key occurs in the list. -/
theorem lookup_map_keyfun {β : Type} (f : String → β) (l : List String) (k : String)
    (hk : k ∈ l) : (l.map fun x => (x, f x)).lookup k = some (f k) := by
  induction l with
  | nil => cases hk
  | cons a t ih =>
    by_cases h : k = a
    · subst h
      simp [List.lookup]
    · have hkt : k ∈ t := by
        cases hk with
        | head => exact absurd rfl h
        | tail _ h2 => exact h2
      have hne : (k == a) = false := by
        simp [h]
      simp [List.lookup, hne, ih hkt]

/-- Looking up a key in a record built by mapping over a key list fails
when the key does not occur in the list. -/
theorem lookup_map_keyfun_none {β : Type} (f : String → β) (l : List String) (k : String)
    (hk : k ∉ l) : (l.map fun x => (x, f x)).lookup k = none := by
  induction l with
  | nil => rfl
  | cons a t ih =>
    have h : k ≠ a := fun h => hk (h ▸ List.mem_cons_self a t)
    have hne : (k == a) = false := by simp [h]
    have hkt : k ∉ t := fun h2 => hk (List.mem_cons_of_mem a h2)
    simp [List.lookup, hne, ih hkt]

/-- C1: the endomorphism record-transform `evolveC` returns a struct of
identical shape (the same keys in the same positions); every key with a
registered transformation holds the transformation applied to the
current value; every key without one holds the input's value unchanged;
and with an empty transformation mapping the result equals the input.
The input struct is a value of a pure function and is never mutated. -/
theorem evolveC_record_transform_c1 {α : Type} (t : String → Option (α → α)) (s : Values α) :
    ((evolveC t s).map Prod.fst = s.map Prod.fst)
    ∧ (∀ (i : Nat) (k : String) (v : α) (f : α → α),
        s[i]? = some (k, v) → t k = some f → (evolveC t s)[i]? = some (k, f v))
    ∧ (∀ (i : Nat) (k : String) (v : α),
        s[i]? = some (k, v) → t k = none → (evolveC t s)[i]? = some (k, v))
    ∧ evolveC (fun _ => none) s = s := by
  refine ⟨?_, ?_, ?_, ?_⟩
  · unfold evolveC
    rw [List.map_map]
    apply List.map_congr_left
    intro p _
    cases h : t p.1 <;> simp [h]
  · intro i k v f hs ht
    unfold evolveC
    rw [List.getElem?_map, hs]
    simp [ht]
  · intro i k v hs ht
    unfold evolveC
    rw [List.getElem?_map, hs]
    simp [ht]
  · unfold evolveC
    simp

/-- C1 witness: on the concrete struct with keys name and age, the
transformation registered for age is applied, name is copied, the shape
is preserved, and the empty mapping is the identity. -/
theorem evolveC_record_transform_c1_witness :
    ((evolveC (singleTrans "age" fun v => v + 1) [("name", 10), ("age", 2)]).map Prod.fst
        = [("name", 10), ("age", 2)].map Prod.fst)
    ∧ (evolveC (singleTrans "age" fun v => v + 1) [("name", 10), ("age", 2)])[1]? = some ("age", 3)
    ∧ (evolveC (singleTrans "age" fun v => v + 1) [("name", 10), ("age", 2)])[0]? = some ("name", 10)
    ∧ evolveC (fun _ => none) [("name", 10), ("age", 2)] = [("name", 10), ("age", 2)] := by
  have h := evolveC_record_transform_c1 (singleTrans "age" fun v => v + 1) [("name", 10), ("age", 2)]
  refine ⟨h.1, ?_, ?_, evolveC_record_transform_c1 (fun _ => none) [("name", 10), ("age", 2)] |>.2.2.2⟩
  · exact h.2.1 1 "age" 2 (fun v => v + 1) rfl (by simp [singleTrans])
  · exact h.2.2.1 0 "name" 10 rfl (by simp [singleTrans])

/-- A lifted single-field update leaves the looked-up value of every
other key unchanged. -/
theorem lookup_liftedUpdate_ne {α : Type} (key : String) (endo : α → α) (k : String)
    (h : k ≠ key) (s : Values α) : (liftedUpdate key endo s).lookup k = s.lookup k := by
  induction s with
  | nil => rfl
  | cons p t ih =>
    obtain ⟨a, b⟩ := p
    by_cases hak : a = key
    · subst hak
      have hka : (k == a) = false := by simp [h]
      simp [liftedUpdate, evolveC, singleTrans, List.lookup, hka] at ih ⊢
      exact ih
    · have : singleTrans key endo a = none := by simp [singleTrans, hak]
      cases hka : k == a <;>
        simp [liftedUpdate, evolveC, singleTrans, List.lookup, hka, hak] at ih ⊢
      exact ih

/-- C3: every function emitted on the combined state-update stream
leaves the value at any key outside the field-module mapping unchanged:
each emission is either the identity (missing field module) or a
record-transform keyed on that field's own name, so a key that is not a
key of the mapping is never touched. -/
theorem emitted_update_unmapped_key_c3 {α : Type} (fieldKeys : List String)
    (fields : String → Option (FieldModel α)) (u : Values α → Values α) (k : String)
    (hu : EmittedUpdate fieldKeys fields u) (hk : k ∉ fieldKeys) (s : Values α) :
    (u s).lookup k = s.lookup k := by
  cases hu with
  | inl h => rw [h]; rfl
  | inr h =>
    obtain ⟨key, endo, hmem, _, hlift⟩ := h
    have hne : k ≠ key := fun h2 => hk (h2 ▸ hmem)
    rw [hlift]
    exact lookup_liftedUpdate_ne key endo k hne s

/-- C3 witness: the lifted update of the name field leaves the value at
the unmapped key age unchanged on a concrete values object. -/
theorem emitted_update_unmapped_key_c3_witness :
    ("age" ∉ ["name"])
    ∧ EmittedUpdate ["name"] (fun _ => some { view := fun _ _ => none })
        (liftedUpdate "name" fun v => v ++ "!")
    ∧ (liftedUpdate "name" (fun v => v ++ "!") [("name", "A"), ("age", "B")]).lookup "age"
        = [("name", "A"), ("age", "B")].lookup "age" := by
  refine ⟨by decide, Or.inr ⟨"name", (fun v => v ++ "!"), by decide, rfl, rfl⟩, ?_⟩
  exact emitted_update_unmapped_key_c3 ["name"] (fun _ => some { view := fun _ _ => none })
    (liftedUpdate "name" fun v => v ++ "!") "age"
    (Or.inr ⟨"name", (fun v => v ++ "!"), by decide, rfl, rfl⟩) (by decide)
    [("name", "A"), ("age", "B")]

/-- Applying a sequence of lifted per-field updates transforms each
entry of the values object by exactly the composition of that entry's
own field's endomorphisms, in emission order. -/
theorem applyUpdates_map {α : Type} (L : List (String × (α → α))) (s : Values α) :
    applyUpdates L s = s.map fun p => (p.1, applyEndos (projSeq p.1 L) p.2) := by
  induction L generalizing s with
  | nil => simp [applyUpdates, projSeq, applyEndos]
  | cons q tl ih =>
    obtain ⟨k, e⟩ := q
    have hstep : applyUpdates ((k, e) :: tl) s = applyUpdates tl (liftedUpdate k e s) := rfl
    rw [hstep, ih]
    have hlift : liftedUpdate k e s
        = s.map fun p => match singleTrans k e p.1 with | none => p | some f => (p.1, f p.2) := rfl
    rw [hlift, List.map_map]
    apply List.map_congr_left
    intro p _
    by_cases h : p.1 = k
    · simp [singleTrans, projSeq, applyEndos, h]
    · have h2 : ¬(k = p.1) := fun hh => h hh.symm
      simp [singleTrans, projSeq, h, h2]

/-- C4: lifted updates keyed on distinct field names commute, and
applying any two interleavings of the per-field update sequences that
agree on every field's own emission order to the same initial values
object yields the same final values object. -/
theorem update_interleaving_c4 {α : Type} :
    (∀ (k1 k2 : String) (f g : α → α), k1 ≠ k2 → ∀ s : Values α,
        liftedUpdate k1 f (liftedUpdate k2 g s) = liftedUpdate k2 g (liftedUpdate k1 f s))
    ∧ (∀ (L1 L2 : List (String × (α → α))) (s : Values α),
        (∀ k, projSeq k L1 = projSeq k L2) → applyUpdates L1 s = applyUpdates L2 s) := by
  have main : ∀ (L1 L2 : List (String × (α → α))) (s : Values α),
      (∀ k, projSeq k L1 = projSeq k L2) → applyUpdates L1 s = applyUpdates L2 s := by
    intro L1 L2 s hproj
    rw [applyUpdates_map, applyUpdates_map]
    apply List.map_congr_left
    intro p _
    rw [hproj p.1]
  refine ⟨?_, main⟩
  intro k1 k2 f g hne s
  have h1 : liftedUpdate k1 f (liftedUpdate k2 g s) = applyUpdates [(k2, g), (k1, f)] s := rfl
  have h2 : liftedUpdate k2 g (liftedUpdate k1 f s) = applyUpdates [(k1, f), (k2, g)] s := rfl
  rw [h1, h2]
  apply main
  intro k
  by_cases ha : k2 = k <;> by_cases hb : k1 = k
  · exact absurd (hb.trans ha.symm) hne
  · simp [projSeq, ha, hb]
  · simp [projSeq, ha, hb]
  · simp [projSeq, ha, hb]

/-- C4 witness: on a concrete two-field values object, the two orders of
one update to each field yield the same result, and two concrete
interleavings with equal per-field projections agree. -/
theorem update_interleaving_c4_witness :
    ("name" ≠ ("age" : String))
    ∧ liftedUpdate "name" (fun v => v + 1) (liftedUpdate "age" (fun v => v * 2) [("name", 10), ("age", 3)])
        = liftedUpdate "age" (fun v => v * 2) (liftedUpdate "name" (fun v => v + 1) [("name", 10), ("age", 3)])
    ∧ applyUpdates [("name", fun v => v + 1), ("age", fun v => v * 2)] [("name", 10), ("age", 3)]
        = applyUpdates [("age", fun v => v * 2), ("name", fun v => v + 1)] [("name", 10), ("age", 3)] := by
  have hproj : ∀ k, projSeq k [("name", fun v => v + 1), ("age", fun v => v * 2)]
      = projSeq k [("age", fun (v : Nat) => v * 2), ("name", fun v => v + 1)] := by
    intro k
    by_cases ha : ("name" : String) = k <;> by_cases hb : ("age" : String) = k
    · exact absurd (ha.trans hb.symm) (by decide)
    · simp [projSeq, ha, hb]
    · simp [projSeq, ha, hb]
    · simp [projSeq, ha, hb]
  exact ⟨by decide,
    update_interleaving_c4.1 "name" "age" (fun v => v + 1) (fun v => v * 2) (by decide)
      [("name", 10), ("age", 3)],
    update_interleaving_c4.2 _ _ [("name", 10), ("age", 3)] hproj⟩

/-- C5: when a rendered node already carries an isolation descriptor (an
isolate array) from a previous, deeper application, tagging it again
with a shallower scope leaves the isolation descriptor unchanged: the
tagger never overwrites an existing descriptor. -/
theorem totalIsolateVNode_keeps_existing_isolate_c5 (n : VNode) (d : VNodeData)
    (arr ns : List IsolateScope) (scope : String)
    (hd : n.data = some d) (hi : d.isolate = some arr) (_hdeep : ns.length + 1 < arr.length) :
    ∃ n' d', totalIsolateVNode (some n) ns scope = some n'
      ∧ n'.data = some d' ∧ d'.isolate = some arr := by
  refine ⟨_, _, rfl, rfl, ?_⟩
  simp only [totalIsolateVNode, hd, hi]

/-- C5 witness: a node carrying a three-entry isolate array keeps it
verbatim when tagged at namespace depth zero. -/
theorem totalIsolateVNode_keeps_existing_isolate_c5_witness :
    ∃ n' d',
      totalIsolateVNode
        (some { data := some { isolate := some [⟨"total", "a"⟩, ⟨"total", "b"⟩, ⟨"total", "c"⟩] },
                key := none }) [] "x"
        = some n'
      ∧ n'.data = some d'
      ∧ d'.isolate = some [⟨"total", "a"⟩, ⟨"total", "b"⟩, ⟨"total", "c"⟩] :=
  totalIsolateVNode_keeps_existing_isolate_c5
    { data := some { isolate := some [⟨"total", "a"⟩, ⟨"total", "b"⟩, ⟨"total", "c"⟩] }, key := none }
    { isolate := some [⟨"total", "a"⟩, ⟨"total", "b"⟩, ⟨"total", "c"⟩] }
    [⟨"total", "a"⟩, ⟨"total", "b"⟩, ⟨"total", "c"⟩] [] "x" rfl rfl (by decide)

/-- The error record maps every key of the fields object to its computed
per-key error. -/
theorem errorsRecord_lookup {α : Type} (fieldKeys : List String)
    (fields : String → Option (FieldModel α)) (validators : String → Option (α → JSVal))
    (values : String → α) (k : String) (hk : k ∈ fieldKeys) :
    (errorsRecord fieldKeys fields validators values).lookup k
      = some (fieldError fields validators values k) :=
  lookup_map_keyfun (fieldError fields validators values) fieldKeys k hk

/-- The whole-form validity flag is true exactly when every key's
computed error is `null`. -/
theorem allValid_iff {α : Type} (fieldKeys : List String)
    (fields : String → Option (FieldModel α)) (validators : String → Option (α → JSVal))
    (values : String → α) :
    allValid (errorsRecord fieldKeys fields validators values) = true ↔
      ∀ k, k ∈ fieldKeys → fieldError fields validators values k = JSVal.null := by
  unfold allValid errorsRecord
  rw [List.all_eq_true]
  constructor
  · intro h k hk
    have h2 := h (k, fieldError fields validators values k) (List.mem_map.mpr ⟨k, hk, rfl⟩)
    exact eq_of_beq h2
  · intro h x hx
    obtain ⟨k, hk, rfl⟩ := List.mem_map.mp hx
    exact beq_iff_eq.mpr (h k hk)

/-- Looking up a key of the fields object in the record of view
invocations yields: no invocation for a missing field module, and
otherwise exactly the coerced error, the touched flag, the current value
and the validity metadata. -/
theorem viewCalls_lookup {α : Type} (fieldKeys : List String)
    (fields : String → Option (FieldModel α)) (validators : String → Option (α → JSVal))
    (values : String → α) (touched : String → Bool) (k : String) (hk : k ∈ fieldKeys) :
    (viewCalls fieldKeys fields validators values touched).lookup k
      = some (match fields k with
              | none => none
              | some _ =>
                some
                  ({ error := jsOr (((errorsRecord fieldKeys fields validators values).lookup k).getD
                        JSVal.null) JSVal.null,
                     touched := touched k,
                     value := values k },
                   { valid := allValid (errorsRecord fieldKeys fields validators values) })) :=
  lookup_map_keyfun _ fieldKeys k hk

/-- C2: on every render cycle the error record maps each key of the
fields object to its validator applied to the field's current value when
both the field module and the validator are registered, and to `null`
when either is absent; and the validity flag handed to every invoked
view is true exactly when every computed error is `null`. -/
theorem render_errors_validity_c2 {α : Type} (fieldKeys : List String)
    (fields : String → Option (FieldModel α)) (validators : String → Option (α → JSVal))
    (values : String → α) (touched : String → Bool) :
    (∀ k, k ∈ fieldKeys →
      (errorsRecord fieldKeys fields validators values).lookup k
        = some (match fields k, validators k with
                | some _, some validator => validator (values k)
                | _, _ => JSVal.null))
    ∧ (allValid (errorsRecord fieldKeys fields validators values) = true ↔
        ∀ k, k ∈ fieldKeys →
          (errorsRecord fieldKeys fields validators values).lookup k = some JSVal.null)
    ∧ (∀ k (inp : ViewInput α) (md : MetaData),
        (viewCalls fieldKeys fields validators values touched).lookup k = some (some (inp, md)) →
          md.valid = allValid (errorsRecord fieldKeys fields validators values)) := by
  refine ⟨?_, ?_, ?_⟩
  · intro k hk
    exact errorsRecord_lookup fieldKeys fields validators values k hk
  · rw [allValid_iff fieldKeys fields validators values]
    constructor
    · intro h k hk
      rw [errorsRecord_lookup fieldKeys fields validators values k hk, h k hk]
    · intro h k hk
      have h2 := h k hk
      rw [errorsRecord_lookup fieldKeys fields validators values k hk] at h2
      exact Option.some_inj.mp h2
  · intro k inp md h
    by_cases hk : k ∈ fieldKeys
    · rw [viewCalls_lookup fieldKeys fields validators values touched k hk] at h
      cases hf : fields k with
      | none => rw [hf] at h; simp at h
      | some fld =>
        rw [hf] at h
        simp only [Option.some_inj] at h
        have hmd := congrArg Prod.snd h
        simp at hmd
        rw [← hmd]
    · have h2 : (viewCalls fieldKeys fields validators values touched).lookup k = none :=
        lookup_map_keyfun_none _ fieldKeys k hk
      rw [h2] at h
      cases h

/-- C2 witness: two concrete fields, a validator only for age which
rejects the current value; the error record holds the validator result
for age and null for name, whole-form validity is false, and the view of
name receives that flag. -/
theorem render_errors_validity_c2_witness :
    ((errorsRecord ["name", "age"] (fun _ => some { view := fun _ _ => none })
        (fun k => if k = "age" then some (fun v : Int => if v < 0 then JSVal.str "neg" else JSVal.null) else none)
        (fun k => if k = "age" then (-1 : Int) else 7)).lookup "age"
      = some (JSVal.str "neg"))
    ∧ ((errorsRecord ["name", "age"] (fun _ => some { view := fun _ _ => none })
        (fun k => if k = "age" then some (fun v : Int => if v < 0 then JSVal.str "neg" else JSVal.null) else none)
        (fun k => if k = "age" then (-1 : Int) else 7)).lookup "name"
      = some JSVal.null)
    ∧ allValid (errorsRecord ["name", "age"] (fun _ => some { view := fun _ _ => none })
        (fun k => if k = "age" then some (fun v : Int => if v < 0 then JSVal.str "neg" else JSVal.null) else none)
        (fun k => if k = "age" then (-1 : Int) else 7)) = false := by
  have h := render_errors_validity_c2 ["name", "age"] (fun _ => some { view := fun _ _ => none })
    (fun k => if k = "age" then some (fun v : Int => if v < 0 then JSVal.str "neg" else JSVal.null) else none)
    (fun k => if k = "age" then (-1 : Int) else 7) (fun _ => false)
  refine ⟨?_, ?_, ?_⟩
  · rw [h.1 "age" (by decide)]
    rfl
  · rw [h.1 "name" (by decide)]
    rfl
  · have h2 := h.2.1
    by_contra hne
    have hav : allValid (errorsRecord ["name", "age"] (fun _ => some { view := fun _ _ => none })
        (fun k => if k = "age" then some (fun v : Int => if v < 0 then JSVal.str "neg" else JSVal.null) else none)
        (fun k => if k = "age" then (-1 : Int) else 7)) = true := by
      cases hb : allValid (errorsRecord ["name", "age"] (fun _ => some { view := fun _ _ => none })
          (fun k => if k = "age" then some (fun v : Int => if v < 0 then JSVal.str "neg" else JSVal.null) else none)
          (fun k => if k = "age" then (-1 : Int) else 7))
      · exact absurd hb hne
      · rfl
    have h3 := h2.mp hav "age" (by decide)
    rw [h.1 "age" (by decide)] at h3
    cases h3

/-- C9: a field whose validator returns a falsy non-null error value has
its view invoked with error `null` (because of the `errors[key] || null`
coercion) while the whole-form validity flag, computed from the
uncoerced error record, is false. -/
theorem falsy_error_view_null_c9 {α : Type} (fieldKeys : List String)
    (fields : String → Option (FieldModel α)) (validators : String → Option (α → JSVal))
    (values : String → α) (touched : String → Bool) (k : String)
    (hk : k ∈ fieldKeys) (hf : (fields k).isSome)
    (hfalsy : jsTruthy (fieldError fields validators values k) = false)
    (hnn : fieldError fields validators values k ≠ JSVal.null) :
    (∃ (inp : ViewInput α) (md : MetaData),
      (viewCalls fieldKeys fields validators values touched).lookup k = some (some (inp, md))
        ∧ inp.error = JSVal.null)
    ∧ allValid (errorsRecord fieldKeys fields validators values) = false := by
  constructor
  · obtain ⟨fld, hfld⟩ := Option.isSome_iff_exists.mp hf
    refine ⟨{ error := jsOr (((errorsRecord fieldKeys fields validators values).lookup k).getD
                JSVal.null) JSVal.null,
              touched := touched k,
              value := values k },
            { valid := allValid (errorsRecord fieldKeys fields validators values) }, ?_, ?_⟩
    · rw [viewCalls_lookup fieldKeys fields validators values touched k hk, hfld]
    · show jsOr (((errorsRecord fieldKeys fields validators values).lookup k).getD JSVal.null)
        JSVal.null = JSVal.null
      rw [errorsRecord_lookup fieldKeys fields validators values k hk]
      simp [jsOr, hfalsy]
  · cases hb : allValid (errorsRecord fieldKeys fields validators values) with
    | false => rfl
    | true =>
      exact absurd ((allValid_iff fieldKeys fields validators values).mp hb k hk) hnn

/-- C9 witness: a validator returning the empty string (falsy but not
null) makes the form invalid while its own view sees a null error. -/
theorem falsy_error_view_null_c9_witness :
    (∃ (inp : ViewInput String) (md : MetaData),
      (viewCalls ["name"] (fun _ => some { view := fun _ _ => none })
          (fun _ => some fun _ => JSVal.str "") (fun _ => "x") (fun _ => false)).lookup "name"
        = some (some (inp, md))
      ∧ inp.error = JSVal.null)
    ∧ allValid (errorsRecord ["name"] (fun _ => some { view := fun _ _ => none })
        (fun _ => some fun _ => JSVal.str "") (fun _ => "x")) = false :=
  falsy_error_view_null_c9 ["name"] (fun _ => some { view := fun _ _ => none })
    (fun _ => some fun _ => JSVal.str "") (fun _ => "x") (fun _ => false) "name"
    (by decide) rfl rfl (by decide)

/-- C8 counterexample: form construction with a validator mapping that
references a name absent from the field-module mapping does not fail:
the render computation succeeds, produces the same error record as with
no validators at all, and reports the form valid — the mismatch is
silently ignored, no error is raised. -/
theorem malformed_validators_ignored_c8_counterexample :
    errorsRecord ["name"] (fun _ => some { view := fun _ _ => none, shouldNotIsolate := false })
        (fun k => if k = "age" then some (fun _ : String => JSVal.str "bad") else none)
        (fun _ => "Alice")
      = [("name", JSVal.null)]
    ∧ errorsRecord ["name"] (fun _ => some { view := fun _ _ => none, shouldNotIsolate := false })
        (fun k => if k = "age" then some (fun _ : String => JSVal.str "bad") else none)
        (fun _ => "Alice")
      = errorsRecord ["name"] (fun _ => some { view := fun _ _ => none, shouldNotIsolate := false })
          (fun _ => none) (fun _ => "Alice")
    ∧ allValid (errorsRecord ["name"]
        (fun _ => some { view := fun _ _ => none, shouldNotIsolate := false })
        (fun k => if k = "age" then some (fun _ : String => JSVal.str "bad") else none)
        (fun _ => "Alice")) = true := by
  refine ⟨rfl, rfl, rfl⟩

/-- C8 amended: form construction performs no runtime validation of the
validator mapping against the field-module mapping; validators keyed
outside the keys of the fields object are never consulted and have no
effect on the computed errors or on any view invocation, and
construction proceeds normally instead of failing. -/
theorem validators_outside_fields_no_effect_c8 {α : Type} (fieldKeys : List String)
    (fields : String → Option (FieldModel α)) (v1 v2 : String → Option (α → JSVal))
    (values : String → α) (touched : String → Bool)
    (hagree : ∀ k, k ∈ fieldKeys → v1 k = v2 k) :
    errorsRecord fieldKeys fields v1 values = errorsRecord fieldKeys fields v2 values
    ∧ viewCalls fieldKeys fields v1 values touched = viewCalls fieldKeys fields v2 values touched := by
  have he : errorsRecord fieldKeys fields v1 values = errorsRecord fieldKeys fields v2 values := by
    unfold errorsRecord
    apply List.map_congr_left
    intro k hk
    unfold fieldError
    rw [hagree k hk]
  refine ⟨he, ?_⟩
  unfold viewCalls
  rw [he]

/-- C8 amended witness: a validator mapping mentioning only the
undeclared key age behaves exactly like the empty validator mapping. -/
theorem validators_outside_fields_no_effect_c8_witness :
    errorsRecord ["name"] (fun _ => some { view := fun _ _ => none })
        (fun k => if k = "age" then some (fun _ : String => JSVal.str "bad") else none)
        (fun _ => "Alice")
      = errorsRecord ["name"] (fun _ => some { view := fun _ _ => none }) (fun _ => none)
          (fun _ => "Alice")
    ∧ viewCalls ["name"] (fun _ => some { view := fun _ _ => none })
        (fun k => if k = "age" then some (fun _ : String => JSVal.str "bad") else none)
        (fun _ => "Alice") (fun _ => false)
      = viewCalls ["name"] (fun _ => some { view := fun _ _ => none }) (fun _ => none)
          (fun _ => "Alice") (fun _ => false) :=
  validators_outside_fields_no_effect_c8 ["name"] (fun _ => some { view := fun _ _ => none })
    (fun k => if k = "age" then some (fun _ : String => JSVal.str "bad") else none)
    (fun _ => none) (fun _ => "Alice") (fun _ => false)
    (by intro k hk; simp at hk; subst hk; rfl)

/-- A completed one-shot gate stays completed across any step. -/
theorem fired_touchStep_mono (fieldKeys : List String) (s : TouchState) (ev : DomEvent)
    (k : String) (h : s.fired k = true) : (touchStep fieldKeys s ev).fired k = true := by
  cases ev with
  | interaction k2 kind =>
    simp only [touchStep]
    by_cases hc : k2 ∈ fieldKeys ∧ s.fired k2 = false
    · rw [if_pos hc]
      by_cases hk : k = k2 <;> simp [hk, h]
    · rw [if_neg hc]
      exact h
  | keydown k2 e => exact h
  | submit => exact h
  | untouch key => cases key <;> exact h

/-- A completed one-shot gate stays completed across any trace. -/
theorem fired_runTouchedFrom_mono (fieldKeys : List String) (s : TouchState)
    (t : List DomEvent) (k : String) (h : s.fired k = true) :
    (runTouchedFrom fieldKeys s t).fired k = true := by
  induction t generalizing s with
  | nil => exact h
  | cons ev tl ih => exact ih _ (fired_touchStep_mono fieldKeys s ev k h)

/-- After an interaction on a field listed in the fields object, that
field's one-shot gate is completed. -/
theorem fired_after_interaction (fieldKeys : List String) (s : TouchState) (k : String)
    (kind : FieldEventKind) (hk : k ∈ fieldKeys) :
    (touchStep fieldKeys s (DomEvent.interaction k kind)).fired k = true := by
  simp only [touchStep]
  by_cases hc : k ∈ fieldKeys ∧ s.fired k = false
  · rw [if_pos hc]
    simp
  · rw [if_neg hc]
    cases hb : s.fired k with
    | true => rfl
    | false => exact absurd ⟨hk, hb⟩ hc

/-- After a trace containing an interaction on a field listed in the
fields object, that field's one-shot gate is completed. -/
theorem fired_after_trace (fieldKeys : List String) (s : TouchState) (t : List DomEvent)
    (k : String) (kind : FieldEventKind) (hk : k ∈ fieldKeys)
    (hmem : DomEvent.interaction k kind ∈ t) :
    (runTouchedFrom fieldKeys s t).fired k = true := by
  induction t generalizing s with
  | nil => cases hmem
  | cons ev tl ih =>
    cases hmem with
    | head =>
      exact fired_runTouchedFrom_mono fieldKeys _ tl k
        (fired_after_interaction fieldKeys s k kind hk)
    | tail _ h2 => exact ih _ h2

/-- Once a field's gate is completed and the field is currently not
touched, a trace of interaction events alone can never mark it touched
again. -/
theorem untouched_stays_untouched (fieldKeys : List String) (s : TouchState)
    (t : List DomEvent) (k : String)
    (hfired : s.fired k = true) (htouch : s.touched k = false)
    (ht : ∀ ev, ev ∈ t → ∃ k2 kd, ev = DomEvent.interaction k2 kd) :
    (runTouchedFrom fieldKeys s t).touched k = false := by
  induction t generalizing s with
  | nil => exact htouch
  | cons ev tl ih =>
    obtain ⟨k2, kd, rfl⟩ := ht ev (List.mem_cons_self ev tl)
    have hstep_fired : (touchStep fieldKeys s (DomEvent.interaction k2 kd)).fired k = true :=
      fired_touchStep_mono fieldKeys s _ k hfired
    have hstep_touch : (touchStep fieldKeys s (DomEvent.interaction k2 kd)).touched k = false := by
      simp only [touchStep]
      by_cases hc : k2 ∈ fieldKeys ∧ s.fired k2 = false
      · rw [if_pos hc]
        by_cases hkk : k = k2
        · subst hkk
          rw [hfired] at hc
          exact absurd hc.2 (by simp)
        · simp [hkk, htouch]
      · rw [if_neg hc]
        exact htouch
    exact ih _ hstep_fired hstep_touch (fun e he => ht e (List.mem_cons_of_mem _ he))

/-- C6: every field starts untouched; the first change, focus or input
interaction on a field of the fields object whose gate is still armed
marks it touched; once the gate has completed, further interactions
change nothing; an untouch emission carrying a key clears exactly that
key; an untouch emission of `null` clears every key; and a touched field
stays touched across any event that is not an untouch emission clearing
it. -/
theorem touched_lifecycle_c6 (fieldKeys : List String) (k : String) (kind : FieldEventKind)
    (s : TouchState) :
    ((runTouched fieldKeys []).touched k = false)
    ∧ (k ∈ fieldKeys → s.fired k = false →
        (touchStep fieldKeys s (DomEvent.interaction k kind)).touched k = true)
    ∧ (s.fired k = true → touchStep fieldKeys s (DomEvent.interaction k kind) = s)
    ∧ ((touchStep fieldKeys s (DomEvent.untouch (some k))).touched k = false)
    ∧ (∀ k2, k2 ≠ k → (touchStep fieldKeys s (DomEvent.untouch (some k))).touched k2
        = s.touched k2)
    ∧ (∀ k2, (touchStep fieldKeys s (DomEvent.untouch none)).touched k2 = false)
    ∧ (s.touched k = true → ∀ ev : DomEvent, ev ≠ DomEvent.untouch none →
        ev ≠ DomEvent.untouch (some k) → (touchStep fieldKeys s ev).touched k = true) := by
  refine ⟨rfl, ?_, ?_, ?_, ?_, ?_, ?_⟩
  · intro hk hb
    simp only [touchStep]
    rw [if_pos ⟨hk, hb⟩]
    simp
  · intro hb
    simp only [touchStep]
    rw [if_neg (fun hc => by rw [hb] at hc; exact absurd hc.2 (by simp))]
  · simp only [touchStep]
    simp
  · intro k2 hk2
    simp only [touchStep]
    simp [hk2]
  · intro k2
    rfl
  · intro htouch ev hnone hsome
    cases ev with
    | interaction k2 kd =>
      simp only [touchStep]
      by_cases hc : k2 ∈ fieldKeys ∧ s.fired k2 = false
      · rw [if_pos hc]
        by_cases hkk : k = k2 <;> simp [hkk, htouch]
      · rw [if_neg hc]
        exact htouch
    | keydown k2 e => exact htouch
    | submit => exact htouch
    | untouch key =>
      cases key with
      | none => exact absurd rfl hnone
      | some k2 =>
        have hkk : k ≠ k2 := fun h => hsome (by rw [h])
        simp only [touchStep]
        simp [hkk, htouch]

/-- C6 witness: with one declared field, the first change interaction
marks it touched, a second one is ignored, an untouch for the field
clears it, an untouch of null clears it, and an unrelated keydown leaves
it touched. -/
theorem touched_lifecycle_c6_witness :
    ((runTouched ["name"] []).touched "name" = false)
    ∧ ("name" ∈ ["name"] ∧ initTouch.fired "name" = false)
    ∧ ((touchStep ["name"] initTouch (DomEvent.interaction "name" FieldEventKind.change)).touched
        "name" = true) := by
  refine ⟨(touched_lifecycle_c6 ["name"] "name" FieldEventKind.change initTouch).1,
    ⟨by decide, rfl⟩, ?_⟩
  exact (touched_lifecycle_c6 ["name"] "name" FieldEventKind.change initTouch).2.1
    (by decide) rfl

/-- C10: within one form session a field transitions from untouched to
touched at most once: after an interaction on the field has completed
its one-shot gate and a subsequent untouch emission (for the field or
for all fields) has cleared it, no later trace of change, focus or input
interactions ever marks the field touched again. -/
theorem touched_oneshot_c10 (fieldKeys : List String) (k : String) (kind : FieldEventKind)
    (t1 t3 : List DomEvent) (u : DomEvent)
    (hk : k ∈ fieldKeys)
    (h1 : DomEvent.interaction k kind ∈ t1)
    (hu : u = DomEvent.untouch (some k) ∨ u = DomEvent.untouch none)
    (h3 : ∀ ev, ev ∈ t3 → ∃ k2 kd, ev = DomEvent.interaction k2 kd) :
    (runTouched fieldKeys (t1 ++ u :: t3)).touched k = false := by
  have happ : runTouched fieldKeys (t1 ++ u :: t3)
      = runTouchedFrom fieldKeys
          (touchStep fieldKeys (runTouchedFrom fieldKeys initTouch t1) u) t3 := by
    unfold runTouched runTouchedFrom
    rw [List.foldl_append]
    rfl
  rw [happ]
  have hfired1 : (runTouchedFrom fieldKeys initTouch t1).fired k = true :=
    fired_after_trace fieldKeys initTouch t1 k kind hk h1
  have hfired2 : (touchStep fieldKeys (runTouchedFrom fieldKeys initTouch t1) u).fired k = true :=
    fired_touchStep_mono fieldKeys _ u k hfired1
  have htouch2 : (touchStep fieldKeys (runTouchedFrom fieldKeys initTouch t1) u).touched k
      = false := by
    cases hu with
    | inl h => rw [h]; simp only [touchStep]; simp
    | inr h => rw [h]; rfl
  exact untouched_stays_untouched fieldKeys _ t3 k hfired2 htouch2 h3

/-- C10 witness: after a change interaction on the field and an untouch
for it, two further interactions leave the field untouched. -/
theorem touched_oneshot_c10_witness :
    (runTouched ["name"]
        ([DomEvent.interaction "name" FieldEventKind.change]
          ++ DomEvent.untouch (some "name")
            :: [DomEvent.interaction "name" FieldEventKind.input,
                DomEvent.interaction "name" FieldEventKind.focus])).touched "name" = false :=
  touched_oneshot_c10 ["name"] "name" FieldEventKind.change
    [DomEvent.interaction "name" FieldEventKind.change]
    [DomEvent.interaction "name" FieldEventKind.input,
     DomEvent.interaction "name" FieldEventKind.focus]
    (DomEvent.untouch (some "name")) (by decide) (List.mem_singleton.mpr rfl)
    (Or.inl rfl)
    (by
      intro ev hev
      cases hev with
      | head => exact ⟨"name", FieldEventKind.input, rfl⟩
      | tail _ h2 =>
        cases h2 with
        | head => exact ⟨"name", FieldEventKind.focus, rfl⟩
        | tail _ h3 => cases h3)

/-- C7: the submission stream is the union of native submit events (each
with default browser submission suppressed) and predicate-satisfying
keydowns on the isolated sources of the configured fields: every native
submit contributes one suppressed-default submission; a
predicate-satisfying keydown on a configured field contributes exactly
one submission; a keydown on an unconfigured field, or one failing the
predicate, contributes none. -/
theorem submission_stream_union_c7 (sf : List String) (p : KeyboardEvent → Bool)
    (t : List DomEvent) (k : String) (e : KeyboardEvent) :
    (∀ b, SubmissionItem.nativeSubmit b ∈ submissionOut sf p t → b = true)
    ∧ (submissionOut sf p (t ++ [DomEvent.submit])
        = submissionOut sf p t ++ [SubmissionItem.nativeSubmit true])
    ∧ (sf.Nodup → k ∈ sf → p e = true →
        submissionOut sf p (t ++ [DomEvent.keydown k e])
          = submissionOut sf p t ++ [SubmissionItem.customSubmit k e])
    ∧ (k ∉ sf → submissionOut sf p (t ++ [DomEvent.keydown k e]) = submissionOut sf p t)
    ∧ (p e = false → submissionOut sf p (t ++ [DomEvent.keydown k e]) = submissionOut sf p t) := by
  refine ⟨?_, ?_, ?_, ?_, ?_⟩
  · intro b hb
    unfold submissionOut at hb
    obtain ⟨ev, _, hev⟩ := List.mem_flatMap.mp hb
    cases ev with
    | interaction k2 kd =>
      have h2 : SubmissionItem.nativeSubmit b ∈ ([] : List SubmissionItem) := hev
      cases h2
    | submit =>
      have h2 : SubmissionItem.nativeSubmit b ∈ [SubmissionItem.nativeSubmit true] := hev
      have h3 := List.mem_singleton.mp h2
      simpa using h3
    | keydown k2 e2 =>
      have h2 : SubmissionItem.nativeSubmit b ∈
          (if p e2 = true then
            List.replicate (sf.count k2) (SubmissionItem.customSubmit k2 e2)
          else []) := hev
      by_cases hp : p e2 = true
      · rw [if_pos hp] at h2
        exact absurd (List.eq_of_mem_replicate h2) (by simp)
      · rw [if_neg hp] at h2
        cases h2
    | untouch key =>
      have h2 : SubmissionItem.nativeSubmit b ∈ ([] : List SubmissionItem) := hev
      cases h2
  · unfold submissionOut
    rw [List.flatMap_append]
    rfl
  · intro hnd hk hp
    unfold submissionOut
    rw [List.flatMap_append]
    simp only [List.flatMap_cons, List.flatMap_nil, List.append_nil, if_pos hp]
    rw [List.count_eq_one_of_mem hnd hk]
    rfl
  · intro hk
    unfold submissionOut
    rw [List.flatMap_append]
    simp only [List.flatMap_cons, List.flatMap_nil, List.append_nil]
    have hc : sf.count k = 0 := List.count_eq_zero.mpr hk
    rw [hc]
    cases hp : p e <;> simp
  · intro hp
    unfold submissionOut
    rw [List.flatMap_append]
    simp only [List.flatMap_cons, List.flatMap_nil, List.append_nil,
      if_neg (by rw [hp]; simp : ¬p e = true)]

/-- C7 witness: with the custom-submission field set containing only the
description field and the Ctrl+Enter predicate, a Ctrl+Enter keydown on
the description field's isolated source yields exactly one submission
and the same keydown on the name field yields none; a native submit
yields one suppressed-default submission. -/
theorem submission_stream_union_c7_witness :
    (submissionOut ["description"] ctrlEnter
        [DomEvent.keydown "description" { ctrlKey := true, metaKey := false, key := "Enter" }]
      = [SubmissionItem.customSubmit "description"
          { ctrlKey := true, metaKey := false, key := "Enter" }])
    ∧ (submissionOut ["description"] ctrlEnter
        [DomEvent.keydown "name" { ctrlKey := true, metaKey := false, key := "Enter" }]
      = [])
    ∧ (submissionOut ["description"] ctrlEnter [DomEvent.submit]
      = [SubmissionItem.nativeSubmit true]) := by
  have h1 := (submission_stream_union_c7 ["description"] ctrlEnter [] "description"
    { ctrlKey := true, metaKey := false, key := "Enter" }).2.2.1 (by decide) (by decide) rfl
  have h2 := (submission_stream_union_c7 ["description"] ctrlEnter [] "name"
    { ctrlKey := true, metaKey := false, key := "Enter" }).2.2.2.1 (by decide)
  have h3 := (submission_stream_union_c7 ["description"] ctrlEnter [] "name"
    { ctrlKey := true, metaKey := false, key := "Enter" }).2.1
  exact ⟨by simpa using h1, by simpa using h2, by simpa using h3⟩
